import Mathlib

set_option maxHeartbeats 1000000

/-!
Verification of the `ElementDofLayout` component of DOLFINX
(`cpp/dolfinx/fem/ElementDofLayout.h`).

The repository supplies only the class declaration; the member function
bodies live outside the supplied sources.  Following the header's
declarations, the operations are therefore modelled from the
specification (`spec.md`): the constructor validates its inputs and
derives the closure tables, and the queries are bounds-checked reads.
Machine `int` values are modelled as `ℕ` (all DOF indices, counts and
entity indices are non-negative).
-/

/-- Modelled from the spec: the reference-cell topology provider is an
external collaborator (spec §1, §6); the repository sources only carry the
`mesh::CellType` tag.  A topology is modelled as the data the provider
supplies for a tag: the topological dimension, the number of entities of
each dimension, and, for an entity `(d, e)`, the set of entities of
dimension `subdim` contained in its boundary. -/
structure CellTopology : Type where
  tdim : ℕ
  num_entities : ℕ → ℕ
  sub_entities : ℕ → ℕ → ℕ → Finset ℕ

/-- The `ElementDofLayout` class of `ElementDofLayout.h`, with the fields of
the header (lines 152-182), in order: `_block_size`, `_parent_map`,
`_num_dofs`, `_num_entity_dofs`, `_num_entity_closure_dofs`,
`_entity_dofs`, `_entity_closure_dofs`, `_sub_dofmaps`, the cell topology
(the header stores the `cell_type` constructor argument's topology only
implicitly; the model keeps it so the queries can bounds-check against it,
spec §4.1), and `_base_permutations`.  `std::set<int>` becomes `Finset ℕ`,
the Eigen permutation array becomes a list of rows. -/
inductive ElementDofLayout : Type where
  | mk (block_size : ℕ) (parent_map : List ℕ) (num_dofs : ℕ)
      (num_entity_dofs : List ℕ) (num_entity_closure_dofs : List ℕ)
      (entity_dofs : List (List (Finset ℕ)))
      (entity_closure_dofs : List (List (Finset ℕ)))
      (sub_dofmaps : List ElementDofLayout) (cell_type : CellTopology)
      (base_permutations : List (List ℕ)) : ElementDofLayout

/-- Field accessor: `_block_size` (header line 154). -/
def ElementDofLayout.block_size : ElementDofLayout → ℕ
  | .mk bs _ _ _ _ _ _ _ _ _ => bs

/-- Field accessor: `_parent_map` (header line 157). -/
def ElementDofLayout.parent_map : ElementDofLayout → List ℕ
  | .mk _ pm _ _ _ _ _ _ _ _ => pm

/-- Getter `num_dofs()` (header line 89), returning `_num_dofs`. -/
def ElementDofLayout.num_dofs : ElementDofLayout → ℕ
  | .mk _ _ nd _ _ _ _ _ _ _ => nd

/-- Field accessor: `_num_entity_dofs` (header line 163). -/
def ElementDofLayout.num_entity_dofs_all : ElementDofLayout → List ℕ
  | .mk _ _ _ ned _ _ _ _ _ _ => ned

/-- Field accessor: `_num_entity_closure_dofs` (header line 167). -/
def ElementDofLayout.num_entity_closure_dofs_all : ElementDofLayout → List ℕ
  | .mk _ _ _ _ necd _ _ _ _ _ => necd

/-- Getter `entity_dofs_all()` (header line 117), returning `_entity_dofs`. -/
def ElementDofLayout.entity_dofs_all : ElementDofLayout → List (List (Finset ℕ))
  | .mk _ _ _ _ _ ed _ _ _ _ => ed

/-- Getter `entity_closure_dofs_all()` (header lines 121-122), returning
`_entity_closure_dofs`. -/
def ElementDofLayout.entity_closure_dofs_all : ElementDofLayout → List (List (Finset ℕ))
  | .mk _ _ _ _ _ _ ecd _ _ _ => ecd

/-- Field accessor: `_sub_dofmaps` (header line 177). -/
def ElementDofLayout.sub_dofmaps : ElementDofLayout → List ElementDofLayout
  | .mk _ _ _ _ _ _ _ sub _ _ => sub

/-- Accessor for the stored cell topology (constructor argument
`cell_type`, header line 64). -/
def ElementDofLayout.cell_type : ElementDofLayout → CellTopology
  | .mk _ _ _ _ _ _ _ _ ct _ => ct

/-- Getter `base_permutations()` (header lines 146-150). -/
def ElementDofLayout.base_permutations : ElementDofLayout → List (List ℕ)
  | .mk _ _ _ _ _ _ _ _ _ bp => bp

/-- Getter `num_sub_dofmaps()` (header line 125). -/
def ElementDofLayout.num_sub_dofmaps (l : ElementDofLayout) : ℕ :=
  l.sub_dofmaps.length

/-- Getter `is_view()` (header line 143): true iff `_parent_map` is
non-empty (spec §4.1). -/
def ElementDofLayout.is_view (l : ElementDofLayout) : Bool :=
  !l.parent_map.isEmpty

/-- The total DOF count derived from the per-entity sets: the sum over all
dimensions and entities of the set sizes (spec §3 `num_dofs` invariant). -/
def numDofs (ed : List (List (Finset ℕ))) : ℕ :=
  ((ed.flatten).map Finset.card).sum

/-- Union of a list of finite sets. -/
def listUnion (L : List (Finset ℕ)) : Finset ℕ :=
  L.foldr (· ∪ ·) ∅

/-- Union of all per-(dimension, entity) DOF sets. -/
def dofUnion (ed : List (List (Finset ℕ))) : Finset ℕ :=
  listUnion ed.flatten

/-- Number of per-entity sets of `L` containing `x` (used to state "each
index appears exactly once"). -/
def countIn (x : ℕ) (L : List (Finset ℕ)) : ℕ :=
  (L.map (fun s => if x ∈ s then 1 else 0)).sum

/-- Number of per-(dimension, entity) DOF sets containing `x`. -/
def dofCount (x : ℕ) (ed : List (List (Finset ℕ))) : ℕ :=
  countIn x ed.flatten

/-- Modelled from the spec: the partition invariant (spec §3): the union of
the `entity_dofs[d][e]` sets is exactly `{0, ..., num_dofs - 1}`. -/
def partitionOk (ed : List (List (Finset ℕ))) : Prop :=
  dofUnion ed = Finset.range (numDofs ed)

instance (ed : List (List (Finset ℕ))) : Decidable (partitionOk ed) :=
  inferInstanceAs (Decidable (dofUnion ed = Finset.range (numDofs ed)))

/-- A permutation row is a bijection on `{0, ..., n - 1}` (spec §4.1):
modelled as the row being a permutation of `List.range n`. -/
def permRowOk (n : ℕ) (row : List ℕ) : Prop :=
  List.Perm row (List.range n)

instance (n : ℕ) (row : List ℕ) : Decidable (permRowOk n row) :=
  inferInstanceAs (Decidable (List.Perm row (List.range n)))

/-- All permutation rows are bijections on `{0, ..., n - 1}`. -/
def permsOk (n : ℕ) (bp : List (List ℕ)) : Prop :=
  ∀ row ∈ bp, permRowOk n row

instance (n : ℕ) (bp : List (List ℕ)) : Decidable (permsOk n bp) :=
  inferInstanceAs (Decidable (∀ row ∈ bp, permRowOk n row))

/-- Number of base-permutation rows contributed by one entity of dimension
`d` (header lines 50-58, spec §3): vertices none, edges one, faces two,
volumes four. -/
def permsPerEntity : ℕ → ℕ
  | 0 => 0
  | 1 => 1
  | 2 => 2
  | 3 => 4
  | _ => 0

/-- Modelled from the spec: the number of permutation rows fixed by the
cell topology (spec §3, §9): each proper sub-entity of dimension `d`
contributes `permsPerEntity d` rows; the cell itself contributes none
(spec §8 concrete scenario: a triangle has exactly 3 rows, one per
edge). -/
def expectedPermRows (ct : CellTopology) : ℕ :=
  ((List.range ct.tdim).map (fun d => ct.num_entities d * permsPerEntity d)).sum

/-- The permutation row count matches the topological count (spec §9). -/
def rowCountOk (bp : List (List ℕ)) (ct : CellTopology) : Prop :=
  bp.length = expectedPermRows ct

instance (bp : List (List ℕ)) (ct : CellTopology) : Decidable (rowCountOk bp ct) :=
  inferInstanceAs (Decidable (bp.length = expectedPermRows ct))

/-- A non-empty parent map has length `num_dofs` (spec §4.1). -/
def parentOk (pm : List ℕ) (n : ℕ) : Prop :=
  pm = [] ∨ pm.length = n

instance (pm : List ℕ) (n : ℕ) : Decidable (parentOk pm n) :=
  inferInstanceAs (Decidable (pm = [] ∨ pm.length = n))

/-- Modelled from the spec: the closure DOFs of entity `(d, e)` (spec
§4.1): `entity_dofs[d][e]` together with the closure DOFs of every entity
of dimension strictly below `d` contained in `e`'s boundary, as given by
the topology provider, deduplicated. -/
def closureDofs (ed : List (List (Finset ℕ))) (ct : CellTopology) (d e : ℕ) : Finset ℕ :=
  ((ed.getD d []).getD e ∅) ∪
    (Finset.range d).attach.biUnion (fun sd =>
      (ct.sub_entities d e sd.1).biUnion (fun se => closureDofs ed ct sd.1 se))
termination_by d
decreasing_by exact Finset.mem_range.mp sd.2

/-- The `_entity_closure_dofs` table derived at construction: same shape as
`entity_dofs`, entry `(d, e)` holding `closureDofs`. -/
def closureTable (ed : List (List (Finset ℕ))) (ct : CellTopology) :
    List (List (Finset ℕ)) :=
  (List.range ed.length).map (fun d =>
    (List.range ((ed.getD d []).length)).map (fun e => closureDofs ed ct d e))

/-- The cached per-dimension DOF counts (`_num_entity_dofs`,
`_num_entity_closure_dofs`): for each of the four dimensions, the size of
the first entity's set (spec §3: cached sizes for topologically symmetric
elements). -/
def dimCounts (t : List (List (Finset ℕ))) : List ℕ :=
  (List.range 4).map (fun d => ((t.getD d []).getD 0 ∅).card)

/-- Modelled from the spec: the `ElementDofLayout` constructor (header
lines 59-66; body not in the supplied sources).  Construction validates
the partition invariant, the bijectivity of every permutation row, the
topological permutation row count (spec §9) and the parent-map length
(spec §4.1, §7); on success it caches `num_dofs`, the per-dimension
counts and the derived closure table.  `InvalidInput` is modelled as
`none`. -/
def ElementDofLayout.create (block_size : ℕ) (entity_dofs : List (List (Finset ℕ)))
    (parent_map : List ℕ) (sub_dofmaps : List ElementDofLayout)
    (cell_type : CellTopology) (base_permutations : List (List ℕ)) :
    Option ElementDofLayout :=
  if partitionOk entity_dofs ∧ permsOk (numDofs entity_dofs) base_permutations ∧
      rowCountOk base_permutations cell_type ∧
      parentOk parent_map (numDofs entity_dofs) then
    some (ElementDofLayout.mk block_size parent_map (numDofs entity_dofs)
      (dimCounts entity_dofs) (dimCounts (closureTable entity_dofs cell_type))
      entity_dofs (closureTable entity_dofs cell_type) sub_dofmaps cell_type
      base_permutations)
  else none

/-- Modelled from the spec: `num_entity_dofs(dim)` (header line 94; body
not in the supplied sources): the cached count, failing with `OutOfRange`
(modelled as `none`) when `dim` exceeds the topological dimension of the
cell (spec §4.1). -/
def ElementDofLayout.num_entity_dofs (l : ElementDofLayout) (dim : ℕ) : Option ℕ :=
  if dim ≤ l.cell_type.tdim then some (l.num_entity_dofs_all.getD dim 0) else none

/-- Modelled from the spec: `num_entity_closure_dofs(dim)` (header line
100), same error policy as `num_entity_dofs`. -/
def ElementDofLayout.num_entity_closure_dofs (l : ElementDofLayout) (dim : ℕ) : Option ℕ :=
  if dim ≤ l.cell_type.tdim then some (l.num_entity_closure_dofs_all.getD dim 0) else none

/-- Modelled from the spec: `entity_dofs(entity_dim, cell_entity_index)`
(header lines 106-107): the ordered sequence of the entity's DOF set
(`std::set<int>` iterates in increasing order), failing with `OutOfRange`
(modelled as `none`) when the dimension or the entity index is out of
bounds for the cell topology (spec §4.1). -/
def ElementDofLayout.entity_dofs (l : ElementDofLayout)
    (entity_dim cell_entity_index : ℕ) : Option (List ℕ) :=
  if entity_dim ≤ l.cell_type.tdim ∧
      cell_entity_index < l.cell_type.num_entities entity_dim then
    some (((l.entity_dofs_all.getD entity_dim []).getD cell_entity_index ∅).sort (· ≤ ·))
  else none

/-- Modelled from the spec: `entity_closure_dofs(entity_dim,
cell_entity_index)` (header lines 113-114), same error policy. -/
def ElementDofLayout.entity_closure_dofs (l : ElementDofLayout)
    (entity_dim cell_entity_index : ℕ) : Option (List ℕ) :=
  if entity_dim ≤ l.cell_type.tdim ∧
      cell_entity_index < l.cell_type.num_entities entity_dim then
    some (((l.entity_closure_dofs_all.getD entity_dim []).getD cell_entity_index ∅).sort (· ≤ ·))
  else none

/-- Modelled from the spec: `sub_dofmap(component)` (header lines 128-129):
walks the component path through nested `_sub_dofmaps`; the empty path
returns this layout itself; an invalid index fails with `OutOfRange`
(modelled as `none`) (spec §4.1). -/
def ElementDofLayout.sub_dofmap : ElementDofLayout → List ℕ → Option ElementDofLayout
  | l, [] => some l
  | l, c :: rest =>
    match l.sub_dofmaps[c]? with
    | some child => child.sub_dofmap rest
    | none => none

/-- Modelled from the spec: `sub_view(component)` (header line 134):
resolves the target sub-layout, starts from the identity list
`0 .. target.num_dofs - 1` and lifts it through the `parent_map` of each
level, the deepest (immediate child of its parent) first (spec §4.1). -/
def ElementDofLayout.sub_view : ElementDofLayout → List ℕ → Option (List ℕ)
  | l, [] => some (List.range l.num_dofs)
  | l, c :: rest =>
    match l.sub_dofmaps[c]? with
    | some child =>
      (child.sub_view rest).map (fun v => v.map (fun j => child.parent_map.getD j 0))
    | none => none

/-- Modelled from the spec: the mapping `sub_view` must realise (spec
§4.1, stated independently of `sub_view` for comparison): the index of the
target's local DOF `j` in this layout's index space, obtained by composing
the `parent_map` chain, the immediate child's map applied first. -/
def parentIndex : ElementDofLayout → List ℕ → ℕ → ℕ
  | _, [], j => j
  | l, c :: rest, j =>
    match l.sub_dofmaps[c]? with
    | some child => child.parent_map.getD (parentIndex child rest j) 0
    | none => 0

/-- Modelled from the spec: `copy()` (header lines 68-69): a structurally
identical instance with the parent information discarded (spec §3
lifecycle). -/
def ElementDofLayout.copy : ElementDofLayout → ElementDofLayout
  | .mk bs _ nd ned necd ed ecd sub ct bp => .mk bs [] nd ned necd ed ecd sub ct bp

/-- The defaulted copy constructor (header line 72): memberwise copy of
every field, `_parent_map` included. -/
def ElementDofLayout.copy_construct : ElementDofLayout → ElementDofLayout
  | .mk bs pm nd ned necd ed ecd sub ct bp => .mk bs pm nd ned necd ed ecd sub ct bp

/-- Modelled from the spec: the triangle reference-cell topology (spec §8
concrete scenario): three vertices, three edges (edge `i` opposite vertex
`i`, containing the other two vertices), one cell of dimension two whose
boundary contains all three edges and all three vertices. -/
def triangleCell : CellTopology :=
  ⟨2,
   fun d => match d with | 0 => 3 | 1 => 3 | 2 => 1 | _ => 0,
   fun d e sd =>
     match d, e, sd with
     | 1, 0, 0 => {1, 2}
     | 1, 1, 0 => {0, 2}
     | 1, 2, 0 => {0, 1}
     | 2, 0, 0 => {0, 1, 2}
     | 2, 0, 1 => {0, 1, 2}
     | _, _, _ => ∅⟩

/-- Modelled from the spec: the point reference-cell topology (spec §2
lists the point among the cell kinds): a single vertex, nothing else. -/
def pointCell : CellTopology :=
  ⟨0, fun d => match d with | 0 => 1 | _ => 0, fun _ _ _ => ∅⟩

/-- The per-entity DOF sets of the spec §8 concrete scenario: one DOF per
vertex of a triangle, no edge or cell DOFs. -/
def triEntityDofs : List (List (Finset ℕ)) :=
  [[{0}, {1}, {2}], [∅, ∅, ∅], [∅]]

/-- Base permutations of the spec §8 concrete scenario: one row per edge,
each acting as the identity on the three vertex DOFs. -/
def triPerms : List (List ℕ) :=
  [[0, 1, 2], [0, 1, 2], [0, 1, 2]]

/-- Construction of the spec §8 concrete triangular element. -/
def triOpt : Option ElementDofLayout :=
  ElementDofLayout.create 1 triEntityDofs [] [] triangleCell triPerms

/-- The spec §8 concrete triangular element. -/
def tri : ElementDofLayout := triOpt.get (by decide)

/-- Per-entity DOF sets of a one-DOF element on a point cell, used as a
child sub-layout in the view round-trip scenario. -/
def childEntityDofs : List (List (Finset ℕ)) := [[{0}]]

/-- Construction of the child sub-layout: one DOF, viewed into a parent at
parent index 2 via `parent_map = [2]`. -/
def childOpt : Option ElementDofLayout :=
  ElementDofLayout.create 1 childEntityDofs [2] [] pointCell []

/-- The child sub-layout of the view scenario. -/
def childL : ElementDofLayout := childOpt.get (by decide)

/-- Construction of a parent layout: the spec §8 triangular element
carrying `childL` as its single sub-dofmap. -/
def parentOpt : Option ElementDofLayout :=
  ElementDofLayout.create 1 triEntityDofs [] [childL] triangleCell triPerms

/-- The parent layout of the view scenario. -/
def parentL : ElementDofLayout := parentOpt.get (by decide)

theorem tri_spec :
    ElementDofLayout.create 1 triEntityDofs [] [] triangleCell triPerms = some tri := by
  have h : triOpt.isSome = true := by decide
  exact (Option.some_get h).symm

theorem childL_spec :
    ElementDofLayout.create 1 childEntityDofs [2] [] pointCell [] = some childL := by
  have h : childOpt.isSome = true := by decide
  exact (Option.some_get h).symm

theorem parentL_spec :
    ElementDofLayout.create 1 triEntityDofs [] [childL] triangleCell triPerms
      = some parentL := by
  have h : parentOpt.isSome = true := by decide
  exact (Option.some_get h).symm

theorem listUnion_cons (s : Finset ℕ) (t : List (Finset ℕ)) :
    listUnion (s :: t) = s ∪ listUnion t := rfl

theorem mem_listUnion (L : List (Finset ℕ)) (x : ℕ) :
    x ∈ listUnion L ↔ ∃ s ∈ L, x ∈ s := by
  induction L with
  | nil => simp [listUnion]
  | cons s t ih => simp [listUnion_cons, Finset.mem_union, ih]

theorem countIn_cons (x : ℕ) (s : Finset ℕ) (t : List (Finset ℕ)) :
    countIn x (s :: t) = (if x ∈ s then 1 else 0) + countIn x t := by
  simp [countIn]

theorem countIn_eq_zero (L : List (Finset ℕ)) (x : ℕ) (hx : x ∉ listUnion L) :
    countIn x L = 0 := by
  induction L with
  | nil => rfl
  | cons s t ih =>
    rw [listUnion_cons] at hx
    simp only [Finset.mem_union, not_or] at hx
    rw [countIn_cons, if_neg hx.1, ih hx.2]

theorem one_le_countIn (L : List (Finset ℕ)) (x : ℕ) (hx : x ∈ listUnion L) :
    1 ≤ countIn x L := by
  induction L with
  | nil => simp [listUnion] at hx
  | cons s t ih =>
    rw [listUnion_cons, Finset.mem_union] at hx
    rw [countIn_cons]
    rcases Decidable.em (x ∈ s) with h | h
    · rw [if_pos h]; omega
    · rw [if_neg h]
      exact le_trans (ih (hx.resolve_left h)) (Nat.le_add_left _ _)

theorem sum_countIn (L : List (Finset ℕ)) :
    ∑ x ∈ listUnion L, countIn x L = (L.map Finset.card).sum := by
  induction L with
  | nil => simp [listUnion, countIn]
  | cons s t ih =>
    rw [listUnion_cons]
    calc ∑ x ∈ s ∪ listUnion t, countIn x (s :: t)
        = ∑ x ∈ s ∪ listUnion t, ((if x ∈ s then 1 else 0) + countIn x t) :=
          Finset.sum_congr rfl (fun x _ => countIn_cons x s t)
      _ = (∑ x ∈ s ∪ listUnion t, (if x ∈ s then (1 : ℕ) else 0))
          + ∑ x ∈ s ∪ listUnion t, countIn x t := Finset.sum_add_distrib
      _ = s.card + (t.map Finset.card).sum := by
          congr 1
          · rw [Finset.sum_boole, Finset.filter_mem_eq_inter,
              Finset.union_inter_cancel_left]
            simp
          · rw [← Finset.sum_subset Finset.subset_union_right
              (fun x _ hx => countIn_eq_zero t x hx), ih]
      _ = ((s :: t).map Finset.card).sum := by simp

theorem partition_countIn (L : List (Finset ℕ))
    (h : listUnion L = Finset.range ((L.map Finset.card).sum)) (x : ℕ) :
    countIn x L = if x < (L.map Finset.card).sum then 1 else 0 := by
  rcases Decidable.em (x < (L.map Finset.card).sum) with hx | hx
  · rw [if_pos hx]
    have hmem : x ∈ listUnion L := by rw [h]; exact Finset.mem_range.mpr hx
    have hsum : ∑ y ∈ listUnion L, (1 : ℕ) = ∑ y ∈ listUnion L, countIn y L := by
      rw [sum_countIn, h]; simp
    have hle : ∀ y ∈ listUnion L, (1 : ℕ) ≤ countIn y L :=
      fun y hy => one_le_countIn L y hy
    exact ((Finset.sum_eq_sum_iff_of_le hle).mp hsum x hmem).symm
  · rw [if_neg hx]
    refine countIn_eq_zero L x ?_
    rw [h]
    simpa using hx

@[simp] theorem ElementDofLayout.block_size_mk (bs : ℕ) (pm : List ℕ) (nd : ℕ)
    (ned necd : List ℕ) (ed ecd : List (List (Finset ℕ)))
    (sub : List ElementDofLayout) (ct : CellTopology) (bp : List (List ℕ)) :
    (ElementDofLayout.mk bs pm nd ned necd ed ecd sub ct bp).block_size = bs := rfl

@[simp] theorem ElementDofLayout.parent_map_mk (bs : ℕ) (pm : List ℕ) (nd : ℕ)
    (ned necd : List ℕ) (ed ecd : List (List (Finset ℕ)))
    (sub : List ElementDofLayout) (ct : CellTopology) (bp : List (List ℕ)) :
    (ElementDofLayout.mk bs pm nd ned necd ed ecd sub ct bp).parent_map = pm := rfl

@[simp] theorem ElementDofLayout.num_dofs_mk (bs : ℕ) (pm : List ℕ) (nd : ℕ)
    (ned necd : List ℕ) (ed ecd : List (List (Finset ℕ)))
    (sub : List ElementDofLayout) (ct : CellTopology) (bp : List (List ℕ)) :
    (ElementDofLayout.mk bs pm nd ned necd ed ecd sub ct bp).num_dofs = nd := rfl

@[simp] theorem ElementDofLayout.num_entity_dofs_all_mk (bs : ℕ) (pm : List ℕ)
    (nd : ℕ) (ned necd : List ℕ) (ed ecd : List (List (Finset ℕ)))
    (sub : List ElementDofLayout) (ct : CellTopology) (bp : List (List ℕ)) :
    (ElementDofLayout.mk bs pm nd ned necd ed ecd sub ct bp).num_entity_dofs_all = ned := rfl

@[simp] theorem ElementDofLayout.num_entity_closure_dofs_all_mk (bs : ℕ)
    (pm : List ℕ) (nd : ℕ) (ned necd : List ℕ) (ed ecd : List (List (Finset ℕ)))
    (sub : List ElementDofLayout) (ct : CellTopology) (bp : List (List ℕ)) :
    (ElementDofLayout.mk bs pm nd ned necd ed ecd sub ct bp).num_entity_closure_dofs_all
      = necd := rfl

@[simp] theorem ElementDofLayout.entity_dofs_all_mk (bs : ℕ) (pm : List ℕ)
    (nd : ℕ) (ned necd : List ℕ) (ed ecd : List (List (Finset ℕ)))
    (sub : List ElementDofLayout) (ct : CellTopology) (bp : List (List ℕ)) :
    (ElementDofLayout.mk bs pm nd ned necd ed ecd sub ct bp).entity_dofs_all = ed := rfl

@[simp] theorem ElementDofLayout.entity_closure_dofs_all_mk (bs : ℕ) (pm : List ℕ)
    (nd : ℕ) (ned necd : List ℕ) (ed ecd : List (List (Finset ℕ)))
    (sub : List ElementDofLayout) (ct : CellTopology) (bp : List (List ℕ)) :
    (ElementDofLayout.mk bs pm nd ned necd ed ecd sub ct bp).entity_closure_dofs_all
      = ecd := rfl

@[simp] theorem ElementDofLayout.sub_dofmaps_mk (bs : ℕ) (pm : List ℕ) (nd : ℕ)
    (ned necd : List ℕ) (ed ecd : List (List (Finset ℕ)))
    (sub : List ElementDofLayout) (ct : CellTopology) (bp : List (List ℕ)) :
    (ElementDofLayout.mk bs pm nd ned necd ed ecd sub ct bp).sub_dofmaps = sub := rfl

@[simp] theorem ElementDofLayout.cell_type_mk (bs : ℕ) (pm : List ℕ) (nd : ℕ)
    (ned necd : List ℕ) (ed ecd : List (List (Finset ℕ)))
    (sub : List ElementDofLayout) (ct : CellTopology) (bp : List (List ℕ)) :
    (ElementDofLayout.mk bs pm nd ned necd ed ecd sub ct bp).cell_type = ct := rfl

@[simp] theorem ElementDofLayout.base_permutations_mk (bs : ℕ) (pm : List ℕ)
    (nd : ℕ) (ned necd : List ℕ) (ed ecd : List (List (Finset ℕ)))
    (sub : List ElementDofLayout) (ct : CellTopology) (bp : List (List ℕ)) :
    (ElementDofLayout.mk bs pm nd ned necd ed ecd sub ct bp).base_permutations = bp := rfl

theorem create_eq_some (bs : ℕ) (ed : List (List (Finset ℕ))) (pm : List ℕ)
    (sub : List ElementDofLayout) (ct : CellTopology) (bp : List (List ℕ))
    (l : ElementDofLayout)
    (h : ElementDofLayout.create bs ed pm sub ct bp = some l) :
    partitionOk ed ∧ permsOk (numDofs ed) bp ∧ rowCountOk bp ct ∧
      parentOk pm (numDofs ed) ∧
      l = ElementDofLayout.mk bs pm (numDofs ed) (dimCounts ed)
        (dimCounts (closureTable ed ct)) ed (closureTable ed ct) sub ct bp := by
  unfold ElementDofLayout.create at h
  split at h
  · rename_i hcond
    exact ⟨hcond.1, hcond.2.1, hcond.2.2.1, hcond.2.2.2, (Option.some.inj h).symm⟩
  · exact absurd h (by simp)

/-- Claim C1: for every successfully constructed `ElementDofLayout`, the
`entity_dofs` sets partition the local index range: their union is exactly
`{0, ..., num_dofs - 1}`, each index lies in exactly one per-entity set
(and indices outside the range in none), and `num_dofs` equals the sum
over all dimensions and entities of the per-entity DOF-set sizes. -/
theorem create_partition (bs : ℕ) (ed : List (List (Finset ℕ))) (pm : List ℕ)
    (sub : List ElementDofLayout) (ct : CellTopology) (bp : List (List ℕ))
    (l : ElementDofLayout)
    (h : ElementDofLayout.create bs ed pm sub ct bp = some l) :
    dofUnion l.entity_dofs_all = Finset.range l.num_dofs ∧
    (∀ x, x < l.num_dofs → dofCount x l.entity_dofs_all = 1) ∧
    (∀ x, l.num_dofs ≤ x → dofCount x l.entity_dofs_all = 0) ∧
    l.num_dofs = ((l.entity_dofs_all.flatten).map Finset.card).sum := by
  obtain ⟨hpart, -, -, -, rfl⟩ := create_eq_some bs ed pm sub ct bp l h
  have hpart' : listUnion ed.flatten
      = Finset.range ((ed.flatten.map Finset.card).sum) := hpart
  simp only [ElementDofLayout.entity_dofs_all_mk, ElementDofLayout.num_dofs_mk]
  refine ⟨hpart, ?_, ?_, rfl⟩
  · intro x hx
    rw [numDofs] at hx
    have := partition_countIn ed.flatten hpart' x
    rw [if_pos hx] at this
    exact this
  · intro x hx
    rw [numDofs] at hx
    have := partition_countIn ed.flatten hpart' x
    rw [if_neg (by omega)] at this
    exact this

/-- Witness for `create_partition`: the spec §8 triangular element. -/
theorem create_partition_witness :
    dofUnion tri.entity_dofs_all = Finset.range tri.num_dofs ∧
    dofCount 0 tri.entity_dofs_all = 1 ∧ dofCount 7 tri.entity_dofs_all = 0 := by
  have h := create_partition 1 triEntityDofs [] [] triangleCell triPerms tri tri_spec
  exact ⟨h.1, h.2.1 0 (by decide), h.2.2.1 7 (by decide)⟩

theorem closureDofs_eq (ed : List (List (Finset ℕ))) (ct : CellTopology) (d e : ℕ) :
    closureDofs ed ct d e = ((ed.getD d []).getD e ∅) ∪
      (Finset.range d).biUnion (fun sd =>
        (ct.sub_entities d e sd).biUnion (fun se => closureDofs ed ct sd se)) := by
  rw [closureDofs]
  congr 1
  ext a
  simp only [Finset.mem_biUnion, Finset.mem_attach, true_and, Subtype.exists,
    Finset.mem_range]
  constructor
  · rintro ⟨sd, hsd, ha⟩
    exact ⟨sd, hsd, ha⟩
  · rintro ⟨sd, hsd, ha⟩
    exact ⟨sd, hsd, ha⟩

theorem closureTable_getD (ed : List (List (Finset ℕ))) (ct : CellTopology)
    (d e : ℕ) (hd : d < ed.length) (he : e < (ed.getD d []).length) :
    ((closureTable ed ct).getD d []).getD e ∅ = closureDofs ed ct d e := by
  unfold closureTable
  have h1 : (List.map (fun d =>
        (List.range ((ed.getD d []).length)).map (fun e => closureDofs ed ct d e))
        (List.range ed.length)).getD d []
      = (List.range ((ed.getD d []).length)).map (fun e => closureDofs ed ct d e) := by
    rw [List.getD_eq_getElem?_getD, List.getElem?_map, List.getElem?_range hd]
    rfl
  rw [h1, List.getD_eq_getElem?_getD, List.getElem?_map, List.getElem?_range he]
  rfl

/-- Claim C2: for every constructed layout and valid `(d, e)`, the stored
`entity_closure_dofs[d][e]` equals `entity_dofs[d][e]` unioned with the
closure DOFs of every entity of dimension strictly less than `d` in `e`'s
boundary (deduplicated by the set union); consequently `entity_dofs[d][e]`
is a subset of `entity_closure_dofs[d][e]`, and for `d = 0` the two sets
are equal. -/
theorem create_closure_spec (bs : ℕ) (ed : List (List (Finset ℕ))) (pm : List ℕ)
    (sub : List ElementDofLayout) (ct : CellTopology) (bp : List (List ℕ))
    (l : ElementDofLayout)
    (h : ElementDofLayout.create bs ed pm sub ct bp = some l)
    (d e : ℕ) (hd : d < l.entity_dofs_all.length)
    (he : e < (l.entity_dofs_all.getD d []).length) :
    ((l.entity_closure_dofs_all.getD d []).getD e ∅
        = (l.entity_dofs_all.getD d []).getD e ∅ ∪
          (Finset.range d).biUnion (fun sd =>
            (l.cell_type.sub_entities d e sd).biUnion
              (fun se => closureDofs l.entity_dofs_all l.cell_type sd se))) ∧
    (l.entity_dofs_all.getD d []).getD e ∅
        ⊆ (l.entity_closure_dofs_all.getD d []).getD e ∅ ∧
    (d = 0 → (l.entity_closure_dofs_all.getD d []).getD e ∅
        = (l.entity_dofs_all.getD d []).getD e ∅) := by
  obtain ⟨-, -, -, -, rfl⟩ := create_eq_some bs ed pm sub ct bp l h
  simp only [ElementDofLayout.entity_dofs_all_mk,
    ElementDofLayout.entity_closure_dofs_all_mk, ElementDofLayout.cell_type_mk]
    at hd he ⊢
  rw [closureTable_getD ed ct d e hd he, closureDofs_eq]
  refine ⟨rfl, Finset.subset_union_left, ?_⟩
  rintro rfl
  simp

/-- Witness for `create_closure_spec`: edge 0 of the spec §8 triangular
element. -/
theorem create_closure_spec_witness :
    (tri.entity_dofs_all.getD 1 []).getD 0 ∅
      ⊆ (tri.entity_closure_dofs_all.getD 1 []).getD 0 ∅ :=
  (create_closure_spec 1 triEntityDofs [] [] triangleCell triPerms tri tri_spec
    1 0 (by decide) (by decide)).2.1

/-- Claim C3: for every successfully constructed layout, every row of
`base_permutations` is a permutation (bijection) of `{0, ..., num_dofs-1}`,
and the number of rows is fixed by the cell topology independently of the
DOF counts: summing over the proper sub-entity dimensions, vertices
contribute 0 rows each, edges 1, faces 2 and volumes 4
(`permsPerEntity`). -/
theorem create_base_permutations_spec (bs : ℕ) (ed : List (List (Finset ℕ)))
    (pm : List ℕ) (sub : List ElementDofLayout) (ct : CellTopology)
    (bp : List (List ℕ)) (l : ElementDofLayout)
    (h : ElementDofLayout.create bs ed pm sub ct bp = some l) :
    (∀ row ∈ l.base_permutations, List.Perm row (List.range l.num_dofs)) ∧
    l.base_permutations.length = ((List.range l.cell_type.tdim).map
      (fun d => l.cell_type.num_entities d * permsPerEntity d)).sum := by
  obtain ⟨-, hperm, hrows, -, rfl⟩ := create_eq_some bs ed pm sub ct bp l h
  simp only [ElementDofLayout.base_permutations_mk, ElementDofLayout.num_dofs_mk,
    ElementDofLayout.cell_type_mk]
  exact ⟨hperm, hrows⟩

/-- Witness for `create_base_permutations_spec`: the first edge row of the
spec §8 triangular element is a permutation of its three DOFs. -/
theorem create_base_permutations_spec_witness :
    List.Perm [0, 1, 2] (List.range tri.num_dofs) :=
  (create_base_permutations_spec 1 triEntityDofs [] [] triangleCell triPerms
    tri tri_spec).1 [0, 1, 2] (by decide)

/-- Counterexample to claim C4 as stated: an input satisfying the claim's
three conditions (partition invariant, every permutation row bijective --
vacuously, there are no rows -- and empty parent map) on which
construction nevertheless fails, because the permutation row count does
not match the topological count the spec §9 requires the constructor to
validate (a triangle needs 3 rows, one per edge). -/
theorem create_three_conditions_not_sufficient :
    partitionOk triEntityDofs ∧
    permsOk (numDofs triEntityDofs) [] ∧
    parentOk [] (numDofs triEntityDofs) ∧
    (ElementDofLayout.create 1 triEntityDofs [] [] triangleCell []).isNone = true := by
  decide

/-- Claim C4 (amended): construction succeeds if and only if the partition
invariant holds, every permutation row is a bijection on
`{0, ..., num_dofs-1}`, the permutation row count matches the topological
count for the cell type, and the parent map is empty or of length
`num_dofs`; it fails (with `InvalidInput`, modelled as `none`) exactly
otherwise. -/
theorem create_some_iff (bs : ℕ) (ed : List (List (Finset ℕ))) (pm : List ℕ)
    (sub : List ElementDofLayout) (ct : CellTopology) (bp : List (List ℕ)) :
    (∃ l, ElementDofLayout.create bs ed pm sub ct bp = some l) ↔
      (partitionOk ed ∧ permsOk (numDofs ed) bp ∧ rowCountOk bp ct ∧
        parentOk pm (numDofs ed)) := by
  unfold ElementDofLayout.create
  split
  · rename_i hcond
    exact ⟨fun _ => hcond, fun _ => ⟨_, rfl⟩⟩
  · rename_i hcond
    constructor
    · rintro ⟨l, hl⟩
      exact absurd hl (by simp)
    · intro hc
      exact absurd hc hcond

theorem getD_range (n j : ℕ) (hj : j < n) : (List.range n).getD j 0 = j := by
  rw [List.getD_eq_getElem?_getD, List.getElem?_range hj]
  rfl

theorem getD_map (v : List ℕ) (f : ℕ → ℕ) (j : ℕ) (hj : j < v.length) :
    (v.map f).getD j 0 = f (v.getD j 0) := by
  rw [List.getD_eq_getElem?_getD, List.getElem?_map, List.getD_eq_getElem?_getD,
    List.getElem?_eq_getElem hj]
  rfl

/-- Claim C5: `sub_dofmap` with an empty path returns this layout itself
(the same value, not a transformed copy), and for every valid component
path `sub_view` returns a sequence of length `target.num_dofs` whose entry
`j` is the index of the target's DOF `j` in this layout's index space,
obtained by composing the `parent_map` chain with the immediate child's
map applied first (`parentIndex`). -/
theorem sub_view_spec (l t : ElementDofLayout) (p v : List ℕ)
    (hv : l.sub_view p = some v) (ht : l.sub_dofmap p = some t) :
    l.sub_dofmap [] = some l ∧ v.length = t.num_dofs ∧
    ∀ j, j < v.length → v.getD j 0 = parentIndex l p j := by
  refine ⟨rfl, ?_⟩
  induction p generalizing l v with
  | nil =>
    simp only [ElementDofLayout.sub_view, Option.some.injEq] at hv
    simp only [ElementDofLayout.sub_dofmap, Option.some.injEq] at ht
    subst hv
    subst ht
    refine ⟨List.length_range _, ?_⟩
    intro j hj
    rw [List.length_range] at hj
    rw [getD_range _ _ hj]
    rfl
  | cons c rest ih =>
    simp only [ElementDofLayout.sub_view] at hv
    simp only [ElementDofLayout.sub_dofmap] at ht
    rcases hcc : l.sub_dofmaps[c]? with - | child
    · rw [hcc] at hv
      exact absurd hv (by simp)
    · rw [hcc] at hv ht
      simp only [Option.map_eq_some'] at hv
      obtain ⟨v', hv', rfl⟩ := hv
      obtain ⟨hlen, hval⟩ := ih child v' hv' ht
      refine ⟨by simpa using hlen, ?_⟩
      intro j hj
      rw [List.length_map] at hj
      rw [getD_map v' _ j hj]
      rw [parentIndex]
      rw [hcc]
      rw [hval j hj]

/-- Witness for `sub_view_spec`: the parent/child view scenario; the
child's DOF 0 sits at parent index 2. -/
theorem sub_view_spec_witness :
    parentL.sub_dofmap [] = some parentL ∧
    ([2] : List ℕ).length = childL.num_dofs ∧
    (0 < ([2] : List ℕ).length ∧ ([2] : List ℕ).getD 0 0 = parentIndex parentL [0] 0) := by
  have hv : parentL.sub_view [0] = some [2] := by decide
  have ht : parentL.sub_dofmap [0] = some childL := rfl
  have h := sub_view_spec parentL childL [0] [2] hv ht
  exact ⟨h.1, h.2.1, by decide, h.2.2 0 (by decide)⟩

/-- Claim C6: view round-trip: for a layout with a child sub-layout
(satisfying the spec §3 parent-map invariants: unique values, length
`num_dofs`), composing `sub_view` on the child's component path and then
tracing each resulting parent index back through the child's own
`parent_map` (via `indexOf`) reproduces the identity mapping
`0 .. child.num_dofs - 1` in order. -/
theorem sub_view_roundtrip (l child : ElementDofLayout) (i : ℕ) (v : List ℕ)
    (hc : l.sub_dofmaps[i]? = some child)
    (hnd : child.parent_map.Nodup)
    (hlen : child.parent_map.length = child.num_dofs)
    (hv : l.sub_view [i] = some v) :
    ∀ j, j < child.num_dofs → child.parent_map.indexOf (v.getD j 0) = j := by
  simp only [ElementDofLayout.sub_view] at hv
  rw [hc] at hv
  simp only [Option.map_some', Option.some.injEq] at hv
  subst hv
  intro j hj
  have hj' : j < (List.range child.num_dofs).length := by
    rw [List.length_range]
    exact hj
  rw [getD_map _ _ j hj', getD_range _ _ hj]
  have hjpm : j < child.parent_map.length := by omega
  have hget : child.parent_map.getD j 0 = child.parent_map[j] := by
    rw [List.getD_eq_getElem?_getD, List.getElem?_eq_getElem hjpm]
    rfl
  rw [hget]
  exact List.indexOf_getElem hnd j hjpm

/-- Witness for `sub_view_roundtrip`: the parent/child view scenario. -/
theorem sub_view_roundtrip_witness :
    0 < childL.num_dofs ∧ childL.parent_map.indexOf (([2] : List ℕ).getD 0 0) = 0 := by
  have hc : parentL.sub_dofmaps[0]? = some childL := rfl
  have hv : parentL.sub_view [0] = some [2] := by decide
  refine ⟨by decide, ?_⟩
  exact sub_view_roundtrip parentL childL 0 [2] hc (by decide) (by decide) hv 0 (by decide)

theorem getElem?_some_lt {α : Type} (l : List α) (c : ℕ) (x : α)
    (h : l[c]? = some x) : c < l.length := by
  rcases Nat.lt_or_ge c l.length with h1 | h1
  · exact h1
  · rw [List.getElem?_eq_none_iff.mpr h1] at h
    exact absurd h (by simp)

/-- Claim C7: out-of-bounds queries fail with `OutOfRange` (modelled as
`none`; the object is never mutated, all queries being pure):
`num_entity_dofs` / `num_entity_closure_dofs` fail exactly when the
dimension exceeds the topological dimension of the cell type;
`entity_dofs` / `entity_closure_dofs` fail exactly when the dimension or
the entity index is out of bounds for the cell type; `sub_dofmap` on a
single-component path fails exactly when the index is not below
`num_sub_dofmaps`, and an invalid index anywhere along a longer path makes
the whole walk fail (the walk factors through every prefix). -/
theorem query_out_of_range (l : ElementDofLayout) (d e c : ℕ) (p q : List ℕ) :
    ((l.num_entity_dofs d = none) ↔ l.cell_type.tdim < d) ∧
    ((l.num_entity_closure_dofs d = none) ↔ l.cell_type.tdim < d) ∧
    ((l.entity_dofs d e = none) ↔
      (l.cell_type.tdim < d ∨ l.cell_type.num_entities d ≤ e)) ∧
    ((l.entity_closure_dofs d e = none) ↔
      (l.cell_type.tdim < d ∨ l.cell_type.num_entities d ≤ e)) ∧
    ((l.sub_dofmap [c] = none) ↔ l.num_sub_dofmaps ≤ c) ∧
    (l.sub_dofmap (p ++ q) = (l.sub_dofmap p).bind (fun t => t.sub_dofmap q)) := by
  refine ⟨?_, ?_, ?_, ?_, ?_, ?_⟩
  · unfold ElementDofLayout.num_entity_dofs
    split
    · rename_i hle
      exact iff_of_false (by simp) (by omega)
    · rename_i hle
      exact iff_of_true rfl (by omega)
  · unfold ElementDofLayout.num_entity_closure_dofs
    split
    · rename_i hle
      exact iff_of_false (by simp) (by omega)
    · rename_i hle
      exact iff_of_true rfl (by omega)
  · unfold ElementDofLayout.entity_dofs
    split
    · rename_i hc
      exact iff_of_false (by simp) (by omega)
    · rename_i hc
      rw [Decidable.not_and_iff_or_not, Nat.not_le, Nat.not_lt] at hc
      exact iff_of_true rfl (by omega)
  · unfold ElementDofLayout.entity_closure_dofs
    split
    · rename_i hc
      exact iff_of_false (by simp) (by omega)
    · rename_i hc
      rw [Decidable.not_and_iff_or_not, Nat.not_le, Nat.not_lt] at hc
      exact iff_of_true rfl (by omega)
  · simp only [ElementDofLayout.sub_dofmap]
    rcases hcc : l.sub_dofmaps[c]? with - | child
    · exact iff_of_true rfl (List.getElem?_eq_none_iff.mp hcc)
    · exact iff_of_false (by simp)
        (by exact Nat.not_le.mpr (getElem?_some_lt l.sub_dofmaps c child hcc))
  · induction p generalizing l with
    | nil => rfl
    | cons c0 rest ih =>
      simp only [List.cons_append, ElementDofLayout.sub_dofmap]
      rcases hcc : l.sub_dofmaps[c0]? with - | child
      · rfl
      · exact ih child

/-- Claim C8: detachment via `copy()`: the copy is no longer a view
(`is_view` false, empty `parent_map`) while `num_dofs` and every other
field -- entity DOF sets, closure sets, block size, cached counts,
sub-dofmaps, cell type and base permutations -- are preserved
structurally. -/
theorem copy_detach (l : ElementDofLayout) :
    l.copy.is_view = false ∧ l.copy.parent_map = [] ∧
    l.copy.num_dofs = l.num_dofs ∧
    l.copy.entity_dofs_all = l.entity_dofs_all ∧
    l.copy.entity_closure_dofs_all = l.entity_closure_dofs_all ∧
    l.copy.block_size = l.block_size ∧
    l.copy.num_entity_dofs_all = l.num_entity_dofs_all ∧
    l.copy.num_entity_closure_dofs_all = l.num_entity_closure_dofs_all ∧
    l.copy.sub_dofmaps = l.sub_dofmaps ∧
    l.copy.cell_type = l.cell_type ∧
    l.copy.base_permutations = l.base_permutations := by
  cases l
  exact ⟨rfl, rfl, rfl, rfl, rfl, rfl, rfl, rfl, rfl, rfl, rfl⟩

/-- Claim C9 (implicit): the sequences returned by `entity_dofs` and
`entity_closure_dofs` are strictly increasing (sorted ascending, no
duplicates), because the per-entity DOF sets are stored as ordered sets
(`std::set<int>`, modelled as `Finset` read off in increasing order). -/
theorem entity_dofs_sorted (l : ElementDofLayout) (d e : ℕ) :
    List.Sorted (· < ·) ((l.entity_dofs d e).getD []) ∧
    List.Sorted (· < ·) ((l.entity_closure_dofs d e).getD []) := by
  constructor
  · unfold ElementDofLayout.entity_dofs
    split
    · exact Finset.sort_sorted_lt _
    · exact List.sorted_nil
  · unfold ElementDofLayout.entity_closure_dofs
    split
    · exact Finset.sort_sorted_lt _
    · exact List.sorted_nil

/-- Claim C10 (implicit): the defaulted copy constructor is a memberwise
copy preserving every field, `parent_map` included, so copying a view
yields a value equal to the original (hence `is_view` and all query
results unchanged) -- in contrast to `copy()`, which clears
`parent_map`. -/
theorem copy_construct_preserves (l : ElementDofLayout) :
    l.copy_construct = l ∧
    l.copy_construct.parent_map = l.parent_map ∧
    l.copy_construct.is_view = l.is_view ∧
    l.copy.is_view = false := by
  cases l
  exact ⟨rfl, rfl, rfl, rfl⟩
